import Mathlib

/-!
Verification of the Local-Best PSO engine (`pso/particle.py`,
`pso/pso_algorithm.py`, `pso/parameter_manager.py`).

Real numbers are modelled by `ℚ`; the score value `float('-inf')` is the
bottom element of `WithBot ℚ`.  Randomness (`random.uniform`,
`np.random.normal`) is modelled by explicit oracle streams passed in as
arguments, and file-system effects by explicit outcome arguments, so every
definition is executable.
-/

namespace PSO

/-- Scores: rationals extended with `-inf` (Python `float('-inf')`). -/
abbrev Score : Type := WithBot ℚ

/-- `np.clip(x, lo, hi) = min (max x lo) hi` (lower bound applied first). -/
def clip (x lo hi : ℚ) : ℚ := min (max x lo) hi

/-- Configuration dictionary (the keys read by `Particle` and `LocalBestPSO`).
`position_bounds` and `velocity_bounds` are split into their two components. -/
structure Config where
  dimensions : ℕ
  num_particles : ℕ
  max_iterations : ℕ
  w : ℚ
  c1 : ℚ
  c2 : ℚ
  neighborhood_size : ℕ
  min_pos : ℚ
  max_pos : ℚ
  min_vel : ℚ
  max_vel : ℚ
  noise_std_dev : ℚ
  dt : ℚ
deriving Repr, DecidableEq

/-- The state of one particle (`Particle.__init__` fields). -/
structure Particle where
  position : List ℚ
  velocity : List ℚ
  kinetic_energy : ℚ
  best_position : List ℚ
  best_score : Score
  energy_history : List ℚ
  kinetic_energy_history : List ℚ
deriving Repr, DecidableEq

instance : Inhabited Particle :=
  ⟨⟨[], [], 0, [], ⊥, [], []⟩⟩

/-- `Particle.__init__`: position is one `random.uniform(min_pos, max_pos)`
draw per dimension (the draws are supplied by the oracle `draws`), velocity is
the zero vector, `best_position` a copy of the position, `best_score = -inf`,
histories empty. -/
def Particle.init (cfg : Config) (draws : ℕ → ℚ) : Particle :=
  let position := (List.range cfg.dimensions).map draws
  { position := position
    velocity := List.replicate cfg.dimensions 0
    kinetic_energy := 0
    best_position := position
    best_score := ⊥
    energy_history := []
    kinetic_energy_history := [] }

/-- `Particle.update_velocity`: `r1`, `r2` are the two scalar
`random.uniform(0,1)` draws of this call, `noise` the per-dimension
`np.random.normal(0, noise_std_dev)` draws.
`velocity = clip(w*v + c1*r1*(best_position-position)
                 + c2*r2*(local_best_position-position) + noise)`,
then `kinetic_energy = 0.5 * sum(velocity**2)` is recomputed and appended to
`kinetic_energy_history`. -/
def Particle.update_velocity (cfg : Config) (r1 r2 : ℚ) (noise : ℕ → ℚ)
    (local_best_position : List ℚ) (p : Particle) : Particle :=
  let cognitive_velocity :=
    List.zipWith (fun b x => cfg.c1 * r1 * (b - x)) p.best_position p.position
  let social_velocity :=
    List.zipWith (fun l x => cfg.c2 * r2 * (l - x)) local_best_position p.position
  let gaussian_noise := (List.range cfg.dimensions).map noise
  let unclipped :=
    List.zipWith (· + ·)
      (List.zipWith (· + ·)
        (List.zipWith (· + ·) (p.velocity.map (fun v => cfg.w * v)) cognitive_velocity)
        social_velocity)
      gaussian_noise
  let velocity := unclipped.map (fun x => clip x cfg.min_vel cfg.max_vel)
  let speed_squared := (velocity.map (fun v => v ^ 2)).sum
  let ke := (1 / 2 : ℚ) * speed_squared
  { p with
    velocity := velocity
    kinetic_energy := ke
    kinetic_energy_history := p.kinetic_energy_history ++ [ke] }

/-- `Particle.update_position`: `position += velocity * dt`, then `np.clip`
to the position bounds. -/
def Particle.update_position (cfg : Config) (p : Particle) : Particle :=
  let moved := List.zipWith (fun x v => x + v * cfg.dt) p.position p.velocity
  { p with position := moved.map (fun x => clip x cfg.min_pos cfg.max_pos) }

/-- Offsets scanned by the neighborhood loop:
`range(-neighborhood_size, neighborhood_size + 1)` with `0` skipped. -/
def ringOffsets (k : ℕ) : List ℤ :=
  ((List.range (2 * k + 1)).map (fun (j : ℕ) => (j : ℤ) - (k : ℤ))).filter
    (fun o => o ≠ 0)

/-- `neighbor_index = (particle_index + offset + num_particles) % num_particles`
(Python `%` on a positive modulus is non-negative, as is `Int.emod`). -/
def neighborIndex (n i : ℕ) (o : ℤ) : ℕ :=
  (((i : ℤ) + o + (n : ℤ)) % (n : ℤ)).toNat

/-- The shared scan loop of `LocalBestPSO._get_local_best_position` and
`LocalBestPSO._get_local_best_score`: start from particle `i` as candidate and
replace the candidate whenever a scanned neighbor has a strictly greater
`best_score`. -/
def localBestCandidate (swarm : List Particle) (k n i : ℕ) : Particle :=
  (ringOffsets k).foldl
    (fun best_candidate o =>
      let neighbor := swarm.getD (neighborIndex n i o) default
      if best_candidate.best_score < neighbor.best_score then neighbor
      else best_candidate)
    (swarm.getD i default)

/-- `LocalBestPSO._get_local_best_position`. -/
def get_local_best_position (swarm : List Particle) (cfg : Config) (i : ℕ) : List ℚ :=
  (localBestCandidate swarm cfg.neighborhood_size cfg.num_particles i).best_position

/-- `LocalBestPSO._get_local_best_score`. -/
def get_local_best_score (swarm : List Particle) (cfg : Config) (i : ℕ) : Score :=
  (localBestCandidate swarm cfg.neighborhood_size cfg.num_particles i).best_score

/-- Engine state (`LocalBestPSO.__init__` fields).  `evalCount` is
instrumentation counting calls to `fitness_function.evaluate`. -/
structure SwarmState where
  swarm : List Particle
  global_best_position : Option (List ℚ)
  global_best_score : Score
  score_history : List Score
  kinetic_energy_history : List ℚ
  pbest_scores_history : List (List Score)
  lbest_scores_history : List (List Score)
  evalCount : ℕ
deriving Repr, DecidableEq

/-- The state built by `LocalBestPSO.__init__` after validation succeeds;
`draws i` is the position-draw oracle of particle `i`. -/
def initState (cfg : Config) (draws : ℕ → ℕ → ℚ) : SwarmState :=
  { swarm := (List.range cfg.num_particles).map (fun i => Particle.init cfg (draws i))
    global_best_position := none
    global_best_score := ⊥
    score_history := []
    kinetic_energy_history := []
    pbest_scores_history := List.replicate cfg.num_particles []
    lbest_scores_history := List.replicate cfg.num_particles []
    evalCount := 0 }

/-- `LocalBestPSO.__init__`: raises `ValueError` unless
`1 <= neighborhood_size < num_particles / 2` (Python real division);
the check precedes the construction of the swarm. -/
def LocalBestPSO.init (cfg : Config) (draws : ℕ → ℕ → ℚ) :
    Except String SwarmState :=
  if ¬ (1 ≤ cfg.neighborhood_size ∧
        (cfg.neighborhood_size : ℚ) < (cfg.num_particles : ℚ) / 2) then
    .error "Neighborhood size must be between 1 and num_particles/2 - 1."
  else
    .ok (initState cfg draws)

/-- The per-particle body of the phase-1 loop up to the personal-best update:
evaluate the fitness at the current position, append the raw score to
`energy_history`, and update `best_score` / `best_position` if the score is
strictly greater. -/
def evalUpdate (fitness : List ℚ → ℚ) (p : Particle) : Particle :=
  let current_score := fitness p.position
  let p := { p with energy_history := p.energy_history ++ [current_score] }
  if p.best_score < (current_score : Score) then
    { p with best_score := (current_score : Score), best_position := p.position }
  else p

/-- One step of the phase-1 loop of `LocalBestPSO.optimize` at particle `i`:
evaluate and update the personal best of particle `i` in place, log the
personal best, then query `_get_local_best_score` on the *current* (partially
updated) swarm and log the result. -/
def evalStep (fitness : List ℚ → ℚ) (cfg : Config) (st : SwarmState) (i : ℕ) :
    SwarmState :=
  let particle := evalUpdate fitness (st.swarm.getD i default)
  let swarm := st.swarm.set i particle
  let pbest_hist :=
    st.pbest_scores_history.set i
      (st.pbest_scores_history.getD i [] ++ [particle.best_score])
  let lbest_score := get_local_best_score swarm cfg i
  let lbest_hist :=
    st.lbest_scores_history.set i
      (st.lbest_scores_history.getD i [] ++ [lbest_score])
  { st with
    swarm := swarm
    pbest_scores_history := pbest_hist
    lbest_scores_history := lbest_hist
    evalCount := st.evalCount + 1 }

/-- Phase 1 of an iteration: the `for i, particle in enumerate(self.swarm)`
loop, processing particles `0, 1, ..., m-1` in index order. -/
def phase1 (fitness : List ℚ → ℚ) (cfg : Config) : ℕ → SwarmState → SwarmState
  | 0, st => st
  | m + 1, st => evalStep fitness cfg (phase1 fitness cfg m st) m

/-- Random-draw oracles of one run: `r1 t i` and `r2 t i` are the two uniform
draws of `update_velocity` for particle `i` at iteration `t`; `noise t i d` is
its Gaussian draw in dimension `d`. -/
structure Rng where
  r1 : ℕ → ℕ → ℚ
  r2 : ℕ → ℕ → ℚ
  noise : ℕ → ℕ → ℕ → ℚ

/-- One step of the phase-2 loop at particle `i`: query
`_get_local_best_position`, update velocity then position, and accumulate the
particle's kinetic energy into the running total. -/
def updateStep (cfg : Config) (rng : Rng) (t : ℕ) (acc : SwarmState × ℚ)
    (i : ℕ) : SwarmState × ℚ :=
  let st := acc.1
  let local_best_position := get_local_best_position st.swarm cfg i
  let particle := st.swarm.getD i default
  let particle :=
    particle.update_velocity cfg (rng.r1 t i) (rng.r2 t i) (rng.noise t i)
      local_best_position
  let particle := particle.update_position cfg
  ({ st with swarm := st.swarm.set i particle }, acc.2 + particle.kinetic_energy)

/-- Phase 2 of an iteration: the second `enumerate(self.swarm)` loop,
processing particles `0, 1, ..., m-1` in index order. -/
def phase2 (cfg : Config) (rng : Rng) (t : ℕ) :
    ℕ → SwarmState × ℚ → SwarmState × ℚ
  | 0, acc => acc
  | m + 1, acc => updateStep cfg rng t (phase2 cfg rng t m acc) m

/-- The body of the global-best scan: replace the global best when a
particle's personal best strictly exceeds it. -/
def globalBestStep (s : SwarmState) (particle : Particle) : SwarmState :=
  if s.global_best_score < particle.best_score then
    { s with
      global_best_score := particle.best_score
      global_best_position := some particle.best_position }
  else s

/-- The aggregation tail of an iteration: append the average kinetic energy,
scan the swarm updating the global best, then append the global best score to
`score_history`. -/
def aggregate (cfg : Config) (total_kinetic_energy : ℚ) (st : SwarmState) :
    SwarmState :=
  let average_kinetic_energy := total_kinetic_energy / (cfg.num_particles : ℚ)
  let st := { st with
    kinetic_energy_history := st.kinetic_energy_history ++ [average_kinetic_energy] }
  let st := st.swarm.foldl globalBestStep st
  { st with score_history := st.score_history ++ [st.global_best_score] }

/-- One full iteration of `LocalBestPSO.optimize` (iteration counter `t`). -/
def stepIteration (fitness : List ℚ → ℚ) (cfg : Config) (rng : Rng) (t : ℕ)
    (st : SwarmState) : SwarmState :=
  let st := phase1 fitness cfg cfg.num_particles st
  let acc := phase2 cfg rng t cfg.num_particles (st, 0)
  aggregate cfg acc.2 acc.1

/-- The iteration loop of `optimize`, run for `T` iterations
(`t = 0, 1, ..., T-1`). -/
def optimizeLoop (fitness : List ℚ → ℚ) (cfg : Config) (rng : Rng) :
    ℕ → SwarmState → SwarmState
  | 0, st => st
  | t + 1, st => stepIteration fitness cfg rng t (optimizeLoop fitness cfg rng t st)

/-- `LocalBestPSO.optimize`: run `max_iterations` iterations and return the
pair `(global_best_position, global_best_score)` together with the final
engine state. -/
def optimize (fitness : List ℚ → ℚ) (cfg : Config) (rng : Rng)
    (st : SwarmState) : (Option (List ℚ) × Score) × SwarmState :=
  let final := optimizeLoop fitness cfg rng cfg.max_iterations st
  ((final.global_best_position, final.global_best_score), final)

/-! ### parameter_manager.py -/

/-- The failure modes of `ParameterManager.load_parameters`. -/
inductive LoadError where
  | fileNotFound
  | yamlSyntaxError
  | missingKey (key : String)
deriving Repr, DecidableEq

/-- A parsed YAML mapping, modelled as an association list of keys to raw
scalar text. -/
abbrev ParamsDict : Type := List (String × String)

/-- Python `key in params` on a dict: membership among the keys. -/
def hasKey (params : ParamsDict) (k : String) : Bool :=
  (params.map Prod.fst).contains k

/-- The `required_keys` list of `load_parameters`, in source order. -/
def requiredKeys : List String :=
  ["dimensions", "num_particles", "max_iterations", "w", "c1", "c2",
   "neighborhood_size", "position_bounds", "velocity_bounds",
   "noise_std_dev", "dt"]

/-- The `for key in required_keys` loop: raise `KeyError` at the first key
not present in the parsed dict. -/
def checkRequiredKeys : List String → ParamsDict → Except LoadError Unit
  | [], _ => .ok ()
  | k :: rest, params =>
    if ¬ hasKey params k then .error (.missingKey k)
    else checkRequiredKeys rest params

/-- `ParameterManager.load_parameters`.  `fileExists` models
`os.path.exists(filepath)` and `parsed` the outcome of `yaml.safe_load`
(`none` = `yaml.YAMLError`). -/
def load_parameters (fileExists : Bool) (parsed : Option ParamsDict) :
    Except LoadError ParamsDict :=
  if ¬ fileExists then .error .fileNotFound
  else
    match parsed with
    | none => .error .yamlSyntaxError
    | some params =>
      match checkRequiredKeys requiredKeys params with
      | .error e => .error e
      | .ok _ => .ok params

/-- `ParameterManager.save_parameters`: the body is one `try` block whose
write action is modelled by `writeOutcome`; both branches return normally,
reporting only via printed messages (the returned list). -/
def save_parameters (writeOutcome : Except String Unit) (filepath : String) :
    Except String (List String) :=
  match writeOutcome with
  | .ok _ => .ok ["Parameters successfully saved to " ++ filepath]
  | .error e => .ok ["Error saving parameters to " ++ filepath ++ ": " ++ e]

/-! ### Auxiliary definitions used only by the statements and proofs -/

/-- The candidates examined by the neighborhood scan, in scan order: particle
`i` itself (the initial candidate) followed by the neighbors in offset order. -/
def scanList (swarm : List Particle) (k n i : ℕ) : List Particle :=
  swarm.getD i default ::
    (ringOffsets k).map (fun o => swarm.getD (neighborIndex n i o) default)

/-- The running-candidate selection loop, abstracted over an explicit list of
candidates: replace the candidate exactly when the newcomer's `best_score` is
strictly greater. -/
def pickBest (c : Particle) (l : List Particle) : Particle :=
  l.foldl
    (fun best_candidate neighbor =>
      if best_candidate.best_score < neighbor.best_score then neighbor
      else best_candidate)
    c

/-- The personal-best snapshot seen by the phase-1 local-best query for
particle `i`: particles with index `≤ i` already carry this iteration's
evaluation-and-personal-best update, particles with index `> i` still carry
the previous iteration's values. -/
def mixedSnapshotSwarm (fitness : List ℚ → ℚ) (swarm : List Particle) (i : ℕ) :
    List Particle :=
  (List.range swarm.length).map
    (fun j =>
      if j ≤ i then evalUpdate fitness (swarm.getD j default)
      else swarm.getD j default)

/-- The velocity-update formula as the spec words it, componentwise:
`clip(w*v_d + c1*r1*(best_d - pos_d) + c2*r2*(lbest_d - pos_d) + noise_d)`
with the same scalars `r1`, `r2` in every dimension. -/
def specVelocity (cfg : Config) (r1 r2 : ℚ) (noise : ℕ → ℚ)
    (local_best_position : List ℚ) (p : Particle) : List ℚ :=
  List.ofFn (fun d : Fin cfg.dimensions =>
    clip (cfg.w * p.velocity.getD d 0
          + cfg.c1 * r1 * (p.best_position.getD d 0 - p.position.getD d 0)
          + cfg.c2 * r2 * (local_best_position.getD d 0 - p.position.getD d 0)
          + noise d)
      cfg.min_vel cfg.max_vel)

/-- A particle with a given personal-best score (the unit tests build these by
assigning `best_score` directly). -/
def testParticle (s : Score) : Particle :=
  { (default : Particle) with best_score := s }

/-- The five-particle swarm of the neighborhood unit test, with personal-best
scores `[-50, -10, -100, -5, -200]`. -/
def testSwarm5 : List Particle :=
  [testParticle ((-50 : ℚ) : Score), testParticle ((-10 : ℚ) : Score),
   testParticle ((-100 : ℚ) : Score), testParticle ((-5 : ℚ) : Score),
   testParticle ((-200 : ℚ) : Score)]

/-- Five particles, `neighborhood_size = 1` (the neighborhood unit test). -/
def cfg5 : Config :=
  { dimensions := 2, num_particles := 5, max_iterations := 5, w := 7/10,
    c1 := 3/2, c2 := 3/2, neighborhood_size := 1, min_pos := -5, max_pos := 5,
    min_vel := -1/2, max_vel := 1/2, noise_std_dev := 1/20, dt := 1 }

/-- Objective used in concrete runs: the first coordinate of the position. -/
def fitnessHead : List ℚ → ℚ := fun pos => pos.headD 0

/-- A random stream that always draws `0`. -/
def rngZero : Rng := ⟨fun _ _ => 0, fun _ _ => 0, fun _ _ _ => 0⟩

/-- Three particles in one dimension, one iteration, all update coefficients
zero (a valid configuration: `1 ≤ 1 < 3/2`). -/
def cfgA : Config :=
  { dimensions := 1, num_particles := 3, max_iterations := 1, w := 0, c1 := 0,
    c2 := 0, neighborhood_size := 1, min_pos := -100, max_pos := 100,
    min_vel := -1, max_vel := 1, noise_std_dev := 0, dt := 0 }

/-- Position draws placing particle 1 at `10` and the others at `0`. -/
def drawsA : ℕ → ℕ → ℚ := fun i _ => if i = 1 then 10 else 0

/-- A configuration whose bound pairs satisfy `min < max` but whose velocity
bounds `[1, 2]` do not contain `0`. -/
def cfgB : Config :=
  { dimensions := 1, num_particles := 3, max_iterations := 1, w := 0, c1 := 0,
    c2 := 0, neighborhood_size := 1, min_pos := 0, max_pos := 1,
    min_vel := 1, max_vel := 2, noise_std_dev := 0, dt := 0 }

/-- A one-dimensional particle used as a concrete witness input. -/
def particleW : Particle :=
  { position := [0], velocity := [0], kinetic_energy := 0,
    best_position := [0], best_score := ⊥,
    energy_history := [], kinetic_energy_history := [] }

/-- The valid configuration `cfgA` with `max_iterations = 0`. -/
def cfgZ : Config :=
  { dimensions := 1, num_particles := 3, max_iterations := 0, w := 0, c1 := 0,
    c2 := 0, neighborhood_size := 1, min_pos := -100, max_pos := 100,
    min_vel := -1, max_vel := 1, noise_std_dev := 0, dt := 0 }

/-- The history bookkeeping invariant after `t` completed iterations: all
engine-level histories have `t` entries, every particle history and every
per-particle history row has `t` entries, and the structural sizes match
`num_particles`. -/
def histInv (cfg : Config) (t : ℕ) (st : SwarmState) : Prop :=
  st.swarm.length = cfg.num_particles ∧
  st.pbest_scores_history.length = cfg.num_particles ∧
  st.lbest_scores_history.length = cfg.num_particles ∧
  st.score_history.length = t ∧
  st.kinetic_energy_history.length = t ∧
  (∀ p ∈ st.swarm, p.energy_history.length = t ∧
    p.kinetic_energy_history.length = t) ∧
  (∀ h ∈ st.pbest_scores_history, h.length = t) ∧
  (∀ h ∈ st.lbest_scores_history, h.length = t)

/-! ## Helper lemmas -/

theorem checkRequiredKeys_eq_find (keys : List String) (ps : ParamsDict) :
    checkRequiredKeys keys ps =
      match keys.find? (fun k => ! hasKey ps k) with
      | some k => .error (.missingKey k)
      | none => .ok () := by
  induction keys with
  | nil => rfl
  | cons k rest ih =>
    by_cases h : hasKey ps k
    · simp [checkRequiredKeys, h, List.find?, ih]
    · simp [checkRequiredKeys, h, List.find?]

theorem mem_ringOffsets (k : ℕ) (o : ℤ) :
    o ∈ ringOffsets k ↔ (-(k : ℤ) ≤ o ∧ o ≤ (k : ℤ) ∧ o ≠ 0) := by
  constructor
  · intro h
    have h1 := List.mem_filter.mp h
    obtain ⟨j, hj, hEq⟩ := List.mem_map.mp h1.1
    have hj' := List.mem_range.mp hj
    replace hEq : (j : ℤ) - (k : ℤ) = o := hEq
    have h0 : o ≠ 0 := by simpa using h1.2
    exact ⟨by omega, by omega, h0⟩
  · rintro ⟨h1, h2, h0⟩
    refine List.mem_filter.mpr ⟨List.mem_map.mpr ⟨(o + k).toNat,
      List.mem_range.mpr (by omega), by omega⟩, by simpa using h0⟩

theorem localBestCandidate_eq_pickBest (swarm : List Particle) (k n i : ℕ) :
    localBestCandidate swarm k n i =
      pickBest (swarm.getD i default)
        ((ringOffsets k).map (fun o => swarm.getD (neighborIndex n i o) default)) := by
  simp [localBestCandidate, pickBest, List.foldl_map]

theorem pickBest_first_argmax (c : Particle) (l : List Particle) :
    (∀ q ∈ c :: l, q.best_score ≤ (pickBest c l).best_score) ∧
      ∃ pre post, c :: l = pre ++ (pickBest c l) :: post ∧
        ∀ q ∈ pre, q.best_score < (pickBest c l).best_score := by
  induction l generalizing c with
  | nil =>
    refine ⟨?_, [], [], rfl, by simp⟩
    intro q hq
    simp only [List.mem_singleton] at hq
    simp [hq, pickBest]
  | cons nb rest ih =>
    have hstep : pickBest c (nb :: rest) =
        pickBest (if c.best_score < nb.best_score then nb else c) rest := by
      simp [pickBest]
    by_cases h : c.best_score < nb.best_score
    · rw [if_pos h] at hstep
      obtain ⟨hle, pre, post, hsplit, hpre⟩ := ih nb
      have hnb_le : nb.best_score ≤ (pickBest c (nb :: rest)).best_score := by
        rw [hstep]; exact hle nb (by simp)
      refine ⟨?_, c :: pre, post, ?_, ?_⟩
      · intro q hq
        rcases List.mem_cons.mp hq with rfl | hq'
        · exact le_of_lt (lt_of_lt_of_le h hnb_le)
        · rw [hstep]; exact hle q hq'
      · rw [hstep, List.cons_append, ← hsplit]
      · intro q hq
        rcases List.mem_cons.mp hq with rfl | hq'
        · exact lt_of_lt_of_le h hnb_le
        · rw [hstep]; exact hpre q hq'
    · rw [if_neg h] at hstep
      have hnb : nb.best_score ≤ c.best_score := le_of_not_lt h
      obtain ⟨hle, pre, post, hsplit, hpre⟩ := ih c
      have hc_le : c.best_score ≤ (pickBest c (nb :: rest)).best_score := by
        rw [hstep]; exact hle c (by simp)
      refine ⟨?_, ?_⟩
      · intro q hq
        rcases List.mem_cons.mp hq with rfl | hq'
        · exact hc_le
        rcases List.mem_cons.mp hq' with rfl | hq''
        · exact le_trans hnb hc_le
        · rw [hstep]; exact hle q (by simp [hq''])
      · cases pre with
        | nil =>
          simp only [List.nil_append] at hsplit
          have hcEq : pickBest c rest = c := (List.cons.injEq _ _ _ _).mp hsplit |>.1.symm
          refine ⟨[], nb :: rest, ?_, by simp⟩
          rw [hstep, hcEq]
          simp
        | cons p pre₂ =>
          simp only [List.cons_append] at hsplit
          obtain ⟨hpEq, hrest⟩ := (List.cons.injEq _ _ _ _).mp hsplit
          have hcpre : c ∈ p :: pre₂ := by rw [hpEq]; simp
          have hclt : c.best_score < (pickBest c rest).best_score := hpre c hcpre
          refine ⟨c :: nb :: pre₂, post, ?_, ?_⟩
          · rw [hstep, List.cons_append, List.cons_append, ← hrest]
          · intro q hq
            rw [hstep]
            rcases List.mem_cons.mp hq with rfl | hq'
            · exact hclt
            rcases List.mem_cons.mp hq' with rfl | hq''
            · exact lt_of_le_of_lt hnb hclt
            · exact hpre q (by rw [← hpEq]; simp [hq''])

theorem clip_bounds (x lo hi : ℚ) (h : lo ≤ hi) :
    lo ≤ clip x lo hi ∧ clip x lo hi ≤ hi :=
  ⟨le_min (le_max_right x lo) h, min_le_right _ _⟩

theorem globalBestStep_mono (s : SwarmState) (p : Particle) :
    s.global_best_score ≤ (globalBestStep s p).global_best_score := by
  by_cases h : s.global_best_score < p.best_score
  · simp only [globalBestStep, if_pos h]
    exact le_of_lt h
  · simp only [globalBestStep, if_neg h]
    exact le_rfl

theorem globalBestStep_fields (s : SwarmState) (p : Particle) :
    (globalBestStep s p).score_history = s.score_history ∧
    (globalBestStep s p).kinetic_energy_history = s.kinetic_energy_history ∧
    (globalBestStep s p).swarm = s.swarm ∧
    (globalBestStep s p).pbest_scores_history = s.pbest_scores_history ∧
    (globalBestStep s p).lbest_scores_history = s.lbest_scores_history ∧
    (globalBestStep s p).evalCount = s.evalCount := by
  by_cases h : s.global_best_score < p.best_score <;>
    simp [globalBestStep, h]

theorem foldl_globalBestStep_mono (l : List Particle) (s : SwarmState) :
    s.global_best_score ≤ (l.foldl globalBestStep s).global_best_score := by
  induction l generalizing s with
  | nil => exact le_rfl
  | cons p rest ih => exact le_trans (globalBestStep_mono s p) (ih _)

theorem foldl_globalBestStep_fields (l : List Particle) (s : SwarmState) :
    (l.foldl globalBestStep s).score_history = s.score_history ∧
    (l.foldl globalBestStep s).kinetic_energy_history = s.kinetic_energy_history ∧
    (l.foldl globalBestStep s).swarm = s.swarm ∧
    (l.foldl globalBestStep s).pbest_scores_history = s.pbest_scores_history ∧
    (l.foldl globalBestStep s).lbest_scores_history = s.lbest_scores_history ∧
    (l.foldl globalBestStep s).evalCount = s.evalCount := by
  induction l generalizing s with
  | nil => exact ⟨rfl, rfl, rfl, rfl, rfl, rfl⟩
  | cons p rest ih =>
    obtain ⟨a, b, c, d, e, f⟩ := ih (globalBestStep s p)
    obtain ⟨a', b', c', d', e', f'⟩ := globalBestStep_fields s p
    exact ⟨a.trans a', b.trans b', c.trans c', d.trans d', e.trans e', f.trans f'⟩

theorem evalStep_preserves (fitness : List ℚ → ℚ) (cfg : Config)
    (st : SwarmState) (i : ℕ) :
    (evalStep fitness cfg st i).score_history = st.score_history ∧
    (evalStep fitness cfg st i).global_best_score = st.global_best_score ∧
    (evalStep fitness cfg st i).global_best_position = st.global_best_position ∧
    (evalStep fitness cfg st i).kinetic_energy_history = st.kinetic_energy_history :=
  ⟨rfl, rfl, rfl, rfl⟩

theorem phase1_preserves (fitness : List ℚ → ℚ) (cfg : Config) (m : ℕ)
    (st : SwarmState) :
    (phase1 fitness cfg m st).score_history = st.score_history ∧
    (phase1 fitness cfg m st).global_best_score = st.global_best_score ∧
    (phase1 fitness cfg m st).global_best_position = st.global_best_position ∧
    (phase1 fitness cfg m st).kinetic_energy_history = st.kinetic_energy_history := by
  induction m with
  | zero => exact ⟨rfl, rfl, rfl, rfl⟩
  | succ m ih =>
    obtain ⟨a, b, c, d⟩ := ih
    obtain ⟨a', b', c', d'⟩ :=
      evalStep_preserves fitness cfg (phase1 fitness cfg m st) m
    exact ⟨a'.trans a, b'.trans b, c'.trans c, d'.trans d⟩

theorem updateStep_preserves (cfg : Config) (rng : Rng) (t : ℕ)
    (acc : SwarmState × ℚ) (i : ℕ) :
    (updateStep cfg rng t acc i).1.score_history = acc.1.score_history ∧
    (updateStep cfg rng t acc i).1.global_best_score = acc.1.global_best_score ∧
    (updateStep cfg rng t acc i).1.global_best_position = acc.1.global_best_position ∧
    (updateStep cfg rng t acc i).1.kinetic_energy_history = acc.1.kinetic_energy_history ∧
    (updateStep cfg rng t acc i).1.pbest_scores_history = acc.1.pbest_scores_history ∧
    (updateStep cfg rng t acc i).1.lbest_scores_history = acc.1.lbest_scores_history ∧
    (updateStep cfg rng t acc i).1.evalCount = acc.1.evalCount :=
  ⟨rfl, rfl, rfl, rfl, rfl, rfl, rfl⟩

theorem phase2_preserves (cfg : Config) (rng : Rng) (t : ℕ) (m : ℕ)
    (acc : SwarmState × ℚ) :
    (phase2 cfg rng t m acc).1.score_history = acc.1.score_history ∧
    (phase2 cfg rng t m acc).1.global_best_score = acc.1.global_best_score ∧
    (phase2 cfg rng t m acc).1.global_best_position = acc.1.global_best_position ∧
    (phase2 cfg rng t m acc).1.kinetic_energy_history = acc.1.kinetic_energy_history ∧
    (phase2 cfg rng t m acc).1.pbest_scores_history = acc.1.pbest_scores_history ∧
    (phase2 cfg rng t m acc).1.lbest_scores_history = acc.1.lbest_scores_history ∧
    (phase2 cfg rng t m acc).1.evalCount = acc.1.evalCount := by
  induction m with
  | zero => exact ⟨rfl, rfl, rfl, rfl, rfl, rfl, rfl⟩
  | succ m ih =>
    obtain ⟨a, b, c, d, e, f, g⟩ := ih
    obtain ⟨a', b', c', d', e', f', g'⟩ :=
      updateStep_preserves cfg rng t (phase2 cfg rng t m acc) m
    exact ⟨a'.trans a, b'.trans b, c'.trans c, d'.trans d, e'.trans e,
      f'.trans f, g'.trans g⟩

theorem aggregate_spec (cfg : Config) (tot : ℚ) (st : SwarmState) :
    (aggregate cfg tot st).score_history =
      st.score_history ++ [(aggregate cfg tot st).global_best_score] ∧
    st.global_best_score ≤ (aggregate cfg tot st).global_best_score ∧
    (aggregate cfg tot st).kinetic_energy_history =
      st.kinetic_energy_history ++ [tot / (cfg.num_particles : ℚ)] ∧
    (aggregate cfg tot st).swarm = st.swarm ∧
    (aggregate cfg tot st).pbest_scores_history = st.pbest_scores_history ∧
    (aggregate cfg tot st).lbest_scores_history = st.lbest_scores_history ∧
    (aggregate cfg tot st).evalCount = st.evalCount := by
  simp only [aggregate]
  have hfields := foldl_globalBestStep_fields st.swarm
    { st with kinetic_energy_history :=
        st.kinetic_energy_history ++ [tot / (cfg.num_particles : ℚ)] }
  have hmono := foldl_globalBestStep_mono st.swarm
    { st with kinetic_energy_history :=
        st.kinetic_energy_history ++ [tot / (cfg.num_particles : ℚ)] }
  refine ⟨?_, hmono, ?_, ?_, ?_, ?_, ?_⟩
  · rw [hfields.1]
  · rw [hfields.2.1]
  · exact hfields.2.2.1
  · exact hfields.2.2.2.1
  · exact hfields.2.2.2.2.1
  · exact hfields.2.2.2.2.2

theorem stepIteration_score_spec (fitness : List ℚ → ℚ) (cfg : Config)
    (rng : Rng) (t : ℕ) (st : SwarmState) :
    (stepIteration fitness cfg rng t st).score_history =
      st.score_history ++ [(stepIteration fitness cfg rng t st).global_best_score] ∧
    st.global_best_score ≤ (stepIteration fitness cfg rng t st).global_best_score := by
  unfold stepIteration
  have h1 := phase1_preserves fitness cfg cfg.num_particles st
  have h2 := phase2_preserves cfg rng t cfg.num_particles
    (phase1 fitness cfg cfg.num_particles st, 0)
  have h3 := aggregate_spec cfg
    (phase2 cfg rng t cfg.num_particles (phase1 fitness cfg cfg.num_particles st, 0)).2
    (phase2 cfg rng t cfg.num_particles (phase1 fitness cfg cfg.num_particles st, 0)).1
  refine ⟨?_, ?_⟩
  · rw [h3.1, h2.1, h1.1]
  · calc st.global_best_score = _ := (h2.2.1.trans h1.2.1).symm
      _ ≤ _ := h3.2.1

theorem optimizeLoop_score_chain (fitness : List ℚ → ℚ) (cfg : Config)
    (rng : Rng) (T : ℕ) (st : SwarmState)
    (h1 : List.Chain' (· ≤ ·) st.score_history)
    (h2 : ∀ x ∈ st.score_history, x ≤ st.global_best_score) :
    List.Chain' (· ≤ ·) (optimizeLoop fitness cfg rng T st).score_history ∧
      ∀ x ∈ (optimizeLoop fitness cfg rng T st).score_history,
        x ≤ (optimizeLoop fitness cfg rng T st).global_best_score := by
  induction T with
  | zero => exact ⟨h1, h2⟩
  | succ T ih =>
    obtain ⟨hc, hb⟩ := ih
    obtain ⟨hS, hM⟩ :=
      stepIteration_score_spec fitness cfg rng T (optimizeLoop fitness cfg rng T st)
    constructor
    · show List.Chain' (· ≤ ·)
        (stepIteration fitness cfg rng T (optimizeLoop fitness cfg rng T st)).score_history
      rw [hS]
      refine List.Chain'.append hc (List.chain'_singleton _) ?_
      intro x hx y hy
      obtain ⟨hne, hxl⟩ := List.mem_getLast?_eq_getLast hx
      have hxmem : x ∈ (optimizeLoop fitness cfg rng T st).score_history := by
        rw [hxl]; exact List.getLast_mem hne
      have hy' : y = (stepIteration fitness cfg rng T
          (optimizeLoop fitness cfg rng T st)).global_best_score := by
        simpa using hy.symm
      rw [hy']
      exact le_trans (hb x hxmem) hM
    · show ∀ x ∈ (stepIteration fitness cfg rng T
          (optimizeLoop fitness cfg rng T st)).score_history, _
      rw [hS]
      intro x hx
      rcases List.mem_append.mp hx with hx' | hx'
      · exact le_trans (hb x hx') hM
      · rw [List.mem_singleton.mp hx']
        exact le_rfl

theorem evalStep_swarm (fitness : List ℚ → ℚ) (cfg : Config) (st : SwarmState)
    (i : ℕ) :
    (evalStep fitness cfg st i).swarm =
      st.swarm.set i (evalUpdate fitness (st.swarm.getD i default)) := rfl

theorem evalStep_pbest (fitness : List ℚ → ℚ) (cfg : Config) (st : SwarmState)
    (i : ℕ) :
    (evalStep fitness cfg st i).pbest_scores_history =
      st.pbest_scores_history.set i
        (st.pbest_scores_history.getD i [] ++
          [(evalUpdate fitness (st.swarm.getD i default)).best_score]) := rfl

theorem evalStep_lbest (fitness : List ℚ → ℚ) (cfg : Config) (st : SwarmState)
    (i : ℕ) :
    (evalStep fitness cfg st i).lbest_scores_history =
      st.lbest_scores_history.set i
        (st.lbest_scores_history.getD i [] ++
          [get_local_best_score
            (st.swarm.set i (evalUpdate fitness (st.swarm.getD i default)))
            cfg i]) := rfl

theorem phase1_lengths (fitness : List ℚ → ℚ) (cfg : Config) (m : ℕ)
    (st : SwarmState) :
    (phase1 fitness cfg m st).swarm.length = st.swarm.length ∧
    (phase1 fitness cfg m st).pbest_scores_history.length =
      st.pbest_scores_history.length ∧
    (phase1 fitness cfg m st).lbest_scores_history.length =
      st.lbest_scores_history.length := by
  induction m with
  | zero => exact ⟨rfl, rfl, rfl⟩
  | succ m ih =>
    obtain ⟨a, b, c⟩ := ih
    refine ⟨?_, ?_, ?_⟩
    · show (evalStep fitness cfg (phase1 fitness cfg m st) m).swarm.length = _
      rw [evalStep_swarm, List.length_set]
      exact a
    · show (evalStep fitness cfg
        (phase1 fitness cfg m st) m).pbest_scores_history.length = _
      rw [evalStep_pbest, List.length_set]
      exact b
    · show (evalStep fitness cfg
        (phase1 fitness cfg m st) m).lbest_scores_history.length = _
      rw [evalStep_lbest, List.length_set]
      exact c

theorem phase1_swarm_getElem? (fitness : List ℚ → ℚ) (cfg : Config) (m : ℕ)
    (st : SwarmState) (j : ℕ) :
    (phase1 fitness cfg m st).swarm[j]? =
      if j < m then (st.swarm[j]?).map (evalUpdate fitness) else st.swarm[j]? := by
  induction m with
  | zero => simp [phase1]
  | succ m ih =>
    show (evalStep fitness cfg (phase1 fitness cfg m st) m).swarm[j]? = _
    rw [evalStep_swarm]
    by_cases hj : j = m
    · subst hj
      by_cases hlen : j < (phase1 fitness cfg j st).swarm.length
      · have hlen' : j < st.swarm.length := by
          rw [← (phase1_lengths fitness cfg j st).1]
          exact hlen
        rw [List.getElem?_set_self hlen]
        have hju : (phase1 fitness cfg j st).swarm[j]? = st.swarm[j]? := by
          rw [ih, if_neg (lt_irrefl j)]
        have hgetD : (phase1 fitness cfg j st).swarm.getD j default =
            st.swarm[j] := by
          rw [List.getD_eq_getElem _ _ hlen]
          rw [List.getElem?_eq_getElem hlen, List.getElem?_eq_getElem hlen'] at hju
          exact Option.some.inj hju
        rw [hgetD, if_pos (Nat.lt_succ_self j), List.getElem?_eq_getElem hlen']
        rfl
      · have hlenS : st.swarm.length ≤ j := by
          rw [← (phase1_lengths fitness cfg j st).1]
          omega
        rw [List.set_eq_of_length_le (le_of_not_lt hlen), ih,
          if_neg (lt_irrefl j), if_pos (Nat.lt_succ_self j),
          List.getElem?_eq_none hlenS]
        rfl
    · rw [List.getElem?_set_ne (fun h => hj h.symm), ih]
      by_cases hjm : j < m
      · rw [if_pos hjm, if_pos (by omega)]
      · rw [if_neg hjm, if_neg (by omega)]

theorem option_map_length_succ {α : Type} {o₁ o₂ : Option (List α)}
    (h : o₁.map List.length = o₂.map List.length) :
    o₁.map (fun l => l.length + 1) = o₂.map (fun l => l.length + 1) := by
  cases o₁ <;> cases o₂ <;> simp_all

theorem setAppend_row_length (rows : List (List Score)) (i : ℕ) (v : Score)
    (j : ℕ) :
    ((rows.set i (rows.getD i [] ++ [v]))[j]?).map List.length =
      if j = i then (rows[j]?).map (fun l => l.length + 1)
      else (rows[j]?).map List.length := by
  by_cases hj : j = i
  · subst hj
    by_cases hlen : j < rows.length
    · rw [List.getElem?_set_self hlen, if_pos rfl, List.getElem?_eq_getElem hlen,
        List.getD_eq_getElem _ _ hlen]
      simp
    · rw [List.set_eq_of_length_le (le_of_not_lt hlen), if_pos rfl,
        List.getElem?_eq_none (le_of_not_lt hlen)]
      rfl
  · rw [List.getElem?_set_ne (fun h => hj h.symm), if_neg hj]

theorem phase1_pbest_row_length (fitness : List ℚ → ℚ) (cfg : Config) (m : ℕ)
    (st : SwarmState) (j : ℕ) :
    ((phase1 fitness cfg m st).pbest_scores_history[j]?).map List.length =
      if j < m then (st.pbest_scores_history[j]?).map (fun l => l.length + 1)
      else (st.pbest_scores_history[j]?).map List.length := by
  induction m with
  | zero => simp [phase1]
  | succ m ih =>
    show ((evalStep fitness cfg
      (phase1 fitness cfg m st) m).pbest_scores_history[j]?).map _ = _
    rw [evalStep_pbest, setAppend_row_length]
    by_cases hj : j = m
    · subst hj
      rw [if_pos rfl, if_pos (Nat.lt_succ_self j)]
      rw [if_neg (lt_irrefl j)] at ih
      exact option_map_length_succ ih
    · rw [if_neg hj, ih]
      by_cases hjm : j < m
      · rw [if_pos hjm, if_pos (by omega)]
      · rw [if_neg hjm, if_neg (by omega)]

theorem phase1_lbest_row_length (fitness : List ℚ → ℚ) (cfg : Config) (m : ℕ)
    (st : SwarmState) (j : ℕ) :
    ((phase1 fitness cfg m st).lbest_scores_history[j]?).map List.length =
      if j < m then (st.lbest_scores_history[j]?).map (fun l => l.length + 1)
      else (st.lbest_scores_history[j]?).map List.length := by
  induction m with
  | zero => simp [phase1]
  | succ m ih =>
    show ((evalStep fitness cfg
      (phase1 fitness cfg m st) m).lbest_scores_history[j]?).map _ = _
    rw [evalStep_lbest, setAppend_row_length]
    by_cases hj : j = m
    · subst hj
      rw [if_pos rfl, if_pos (Nat.lt_succ_self j)]
      rw [if_neg (lt_irrefl j)] at ih
      exact option_map_length_succ ih
    · rw [if_neg hj, ih]
      by_cases hjm : j < m
      · rw [if_pos hjm, if_pos (by omega)]
      · rw [if_neg hjm, if_neg (by omega)]

theorem evalUpdate_histories (fitness : List ℚ → ℚ) (p : Particle) :
    (evalUpdate fitness p).energy_history =
      p.energy_history ++ [fitness p.position] ∧
    (evalUpdate fitness p).kinetic_energy_history = p.kinetic_energy_history := by
  unfold evalUpdate
  by_cases h : p.best_score < ((fitness p.position : ℚ) : Score)
  · rw [if_pos h]
    exact ⟨rfl, rfl⟩
  · rw [if_neg h]
    exact ⟨rfl, rfl⟩

theorem updateStep_swarm (cfg : Config) (rng : Rng) (t : ℕ)
    (acc : SwarmState × ℚ) (i : ℕ) :
    (updateStep cfg rng t acc i).1.swarm =
      acc.1.swarm.set i
        (Particle.update_position cfg
          (Particle.update_velocity cfg (rng.r1 t i) (rng.r2 t i) (rng.noise t i)
            (get_local_best_position acc.1.swarm cfg i)
            (acc.1.swarm.getD i default))) := rfl

theorem update_pair_histories (cfg : Config) (r1 r2 : ℚ) (noise : ℕ → ℚ)
    (lbp : List ℚ) (p : Particle) :
    (Particle.update_position cfg
        (Particle.update_velocity cfg r1 r2 noise lbp p)).energy_history =
      p.energy_history ∧
    ∃ ke, (Particle.update_position cfg
        (Particle.update_velocity cfg r1 r2 noise lbp p)).kinetic_energy_history =
      p.kinetic_energy_history ++ [ke] :=
  ⟨rfl, _, rfl⟩

theorem phase2_swarm_length (cfg : Config) (rng : Rng) (t m : ℕ)
    (acc : SwarmState × ℚ) :
    (phase2 cfg rng t m acc).1.swarm.length = acc.1.swarm.length := by
  induction m with
  | zero => rfl
  | succ m ih =>
    show (updateStep cfg rng t (phase2 cfg rng t m acc) m).1.swarm.length = _
    rw [updateStep_swarm, List.length_set]
    exact ih

theorem phase2_swarm_hist_lengths (cfg : Config) (rng : Rng) (t m : ℕ)
    (acc : SwarmState × ℚ) (j : ℕ) :
    ((phase2 cfg rng t m acc).1.swarm[j]?).map
        (fun p => (p.energy_history.length, p.kinetic_energy_history.length)) =
      if j < m then
        (acc.1.swarm[j]?).map
          (fun p => (p.energy_history.length, p.kinetic_energy_history.length + 1))
      else
        (acc.1.swarm[j]?).map
          (fun p => (p.energy_history.length, p.kinetic_energy_history.length)) := by
  induction m with
  | zero => simp [phase2]
  | succ m ih =>
    show ((updateStep cfg rng t (phase2 cfg rng t m acc) m).1.swarm[j]?).map _ = _
    rw [updateStep_swarm]
    by_cases hj : j = m
    · subst hj
      by_cases hlen : j < (phase2 cfg rng t j acc).1.swarm.length
      · have hlen' : j < acc.1.swarm.length := by
          rw [← phase2_swarm_length cfg rng t j acc]
          exact hlen
        rw [List.getElem?_set_self hlen, if_pos (Nat.lt_succ_self j)]
        rw [if_neg (lt_irrefl j)] at ih
        rw [List.getElem?_eq_getElem hlen, List.getElem?_eq_getElem hlen'] at ih
        simp only [Option.map_some', Option.some.injEq, Prod.mk.injEq] at ih
        obtain ⟨he, hk⟩ := ih
        obtain ⟨hE, ke, hK⟩ := update_pair_histories cfg (rng.r1 t j) (rng.r2 t j)
          (rng.noise t j)
          (get_local_best_position (phase2 cfg rng t j acc).1.swarm cfg j)
          ((phase2 cfg rng t j acc).1.swarm.getD j default)
        have hgetD : (phase2 cfg rng t j acc).1.swarm.getD j default =
            (phase2 cfg rng t j acc).1.swarm[j] := List.getD_eq_getElem _ _ hlen
        rw [List.getElem?_eq_getElem hlen']
        simp only [Option.map_some']
        rw [hE, hK, hgetD]
        simp only [List.length_append, List.length_cons, List.length_nil]
        rw [he, hk]
      · have hlenS : acc.1.swarm.length ≤ j := by
          rw [← phase2_swarm_length cfg rng t j acc]
          omega
        rw [List.set_eq_of_length_le (le_of_not_lt hlen), ih,
          if_neg (lt_irrefl j), if_pos (Nat.lt_succ_self j),
          List.getElem?_eq_none hlenS]
        rfl
    · rw [List.getElem?_set_ne (fun h => hj h.symm), ih]
      by_cases hjm : j < m
      · rw [if_pos hjm, if_pos (by omega)]
      · rw [if_neg hjm, if_neg (by omega)]

theorem histInv_step (fitness : List ℚ → ℚ) (cfg : Config) (rng : Rng)
    (t tt : ℕ) (st : SwarmState) (hInv : histInv cfg t st) :
    histInv cfg (t + 1) (stepIteration fitness cfg rng tt st) := by
  obtain ⟨hswn, hpbn, hlbn, hsc, hke, hpart, hpb, hlb⟩ := hInv
  have hA1 := phase1_lengths fitness cfg cfg.num_particles st
  have hA2 := phase1_preserves fitness cfg cfg.num_particles st
  have hB2 := phase2_preserves cfg rng tt cfg.num_particles
    (phase1 fitness cfg cfg.num_particles st, 0)
  have hBlen := phase2_swarm_length cfg rng tt cfg.num_particles
    (phase1 fitness cfg cfg.num_particles st, 0)
  have hC := aggregate_spec cfg
    (phase2 cfg rng tt cfg.num_particles (phase1 fitness cfg cfg.num_particles st, 0)).2
    (phase2 cfg rng tt cfg.num_particles (phase1 fitness cfg cfg.num_particles st, 0)).1
  show histInv cfg (t + 1)
    (aggregate cfg
      (phase2 cfg rng tt cfg.num_particles (phase1 fitness cfg cfg.num_particles st, 0)).2
      (phase2 cfg rng tt cfg.num_particles (phase1 fitness cfg cfg.num_particles st, 0)).1)
  refine ⟨?_, ?_, ?_, ?_, ?_, ?_, ?_, ?_⟩
  · rw [hC.2.2.2.1, hBlen, hA1.1, hswn]
  · rw [hC.2.2.2.2.1, hB2.2.2.2.2.1, hA1.2.1, hpbn]
  · rw [hC.2.2.2.2.2.1, hB2.2.2.2.2.2.1, hA1.2.2, hlbn]
  · rw [hC.1, List.length_append, hB2.1, hA2.1, hsc]
    rfl
  · rw [hC.2.2.1, List.length_append, hB2.2.2.2.1, hA2.2.2.2, hke]
    rfl
  · intro p hp
    rw [hC.2.2.2.1] at hp
    obtain ⟨j, hj⟩ := List.mem_iff_getElem?.mp hp
    have hjn : j < cfg.num_particles := by
      have := List.getElem?_eq_some.mp hj
      obtain ⟨hlt, _⟩ := this
      rw [hBlen, hA1.1, hswn] at hlt
      exact hlt
    have hchar := phase2_swarm_hist_lengths cfg rng tt cfg.num_particles
      (phase1 fitness cfg cfg.num_particles st, 0) j
    rw [if_pos hjn, hj] at hchar
    have hchar1 := phase1_swarm_getElem? fitness cfg cfg.num_particles st j
    rw [if_pos hjn] at hchar1
    have hjs : j < st.swarm.length := by rw [hswn]; exact hjn
    rw [hchar1, List.getElem?_eq_getElem hjs] at hchar
    obtain ⟨hEq, hKq⟩ := evalUpdate_histories fitness (st.swarm.getD j default)
    have hgd : st.swarm.getD j default = st.swarm[j] :=
      List.getD_eq_getElem _ _ hjs
    rw [hgd] at hEq hKq
    simp only [Option.map_some', Option.some.injEq, Prod.mk.injEq] at hchar
    obtain ⟨he, hk⟩ := hchar
    obtain ⟨hqe, hqk⟩ := hpart (st.swarm[j]) (List.getElem_mem hjs)
    constructor
    · rw [he, hEq, List.length_append, hqe]
      rfl
    · rw [hk, hKq, hqk]
  · intro h hh
    rw [hC.2.2.2.2.1, hB2.2.2.2.2.1] at hh
    obtain ⟨j, hj⟩ := List.mem_iff_getElem?.mp hh
    have hjn : j < cfg.num_particles := by
      obtain ⟨hlt, _⟩ := List.getElem?_eq_some.mp hj
      rw [hA1.2.1, hpbn] at hlt
      exact hlt
    have hchar := phase1_pbest_row_length fitness cfg cfg.num_particles st j
    rw [if_pos hjn, hj] at hchar
    have hjs : j < st.pbest_scores_history.length := by rw [hpbn]; exact hjn
    rw [List.getElem?_eq_getElem hjs] at hchar
    simp only [Option.map_some', Option.some.injEq] at hchar
    rw [hchar, hpb (st.pbest_scores_history[j]) (List.getElem_mem hjs)]
  · intro h hh
    rw [hC.2.2.2.2.2.1, hB2.2.2.2.2.2.1] at hh
    obtain ⟨j, hj⟩ := List.mem_iff_getElem?.mp hh
    have hjn : j < cfg.num_particles := by
      obtain ⟨hlt, _⟩ := List.getElem?_eq_some.mp hj
      rw [hA1.2.2, hlbn] at hlt
      exact hlt
    have hchar := phase1_lbest_row_length fitness cfg cfg.num_particles st j
    rw [if_pos hjn, hj] at hchar
    have hjs : j < st.lbest_scores_history.length := by rw [hlbn]; exact hjn
    rw [List.getElem?_eq_getElem hjs] at hchar
    simp only [Option.map_some', Option.some.injEq] at hchar
    rw [hchar, hlb (st.lbest_scores_history[j]) (List.getElem_mem hjs)]

theorem initState_histInv (cfg : Config) (draws : ℕ → ℕ → ℚ) :
    histInv cfg 0 (initState cfg draws) := by
  refine ⟨?_, ?_, ?_, rfl, rfl, ?_, ?_, ?_⟩
  · simp [initState]
  · simp [initState]
  · simp [initState]
  · intro p hp
    simp only [initState, List.mem_map, List.mem_range] at hp
    obtain ⟨i, _, rfl⟩ := hp
    exact ⟨rfl, rfl⟩
  · intro h hh
    rw [List.eq_of_mem_replicate (show h ∈ _ from hh)]
    rfl
  · intro h hh
    rw [List.eq_of_mem_replicate (show h ∈ _ from hh)]
    rfl

theorem optimizeLoop_histInv (fitness : List ℚ → ℚ) (cfg : Config) (rng : Rng)
    (draws : ℕ → ℕ → ℚ) (T : ℕ) :
    histInv cfg T (optimizeLoop fitness cfg rng T (initState cfg draws)) := by
  induction T with
  | zero => exact initState_histInv cfg draws
  | succ T ih => exact histInv_step fitness cfg rng T T _ ih

theorem phase1_lbest_untouched (fitness : List ℚ → ℚ) (cfg : Config) (m : ℕ)
    (st : SwarmState) (j : ℕ) (hmj : m ≤ j) :
    (phase1 fitness cfg m st).lbest_scores_history[j]? =
      st.lbest_scores_history[j]? := by
  induction m with
  | zero => rfl
  | succ m ih =>
    show (evalStep fitness cfg
      (phase1 fitness cfg m st) m).lbest_scores_history[j]? = _
    rw [evalStep_lbest, List.getElem?_set_ne (show m ≠ j by omega)]
    exact ih (by omega)

theorem phase1_lbest_stable (fitness : List ℚ → ℚ) (cfg : Config)
    (st : SwarmState) (j m : ℕ) (hjm : j < m) :
    (phase1 fitness cfg m st).lbest_scores_history[j]? =
      (phase1 fitness cfg (j + 1) st).lbest_scores_history[j]? := by
  induction m with
  | zero => omega
  | succ m ih =>
    by_cases h : j < m
    · show (evalStep fitness cfg
        (phase1 fitness cfg m st) m).lbest_scores_history[j]? = _
      rw [evalStep_lbest, List.getElem?_set_ne (show m ≠ j by omega)]
      exact ih h
    · have hm : m = j := by omega
      subst hm
      rfl

theorem phase1_lbest_at_self (fitness : List ℚ → ℚ) (cfg : Config)
    (st : SwarmState) (j : ℕ) (hj : j < st.lbest_scores_history.length) :
    (phase1 fitness cfg (j + 1) st).lbest_scores_history[j]? =
      some (st.lbest_scores_history.getD j [] ++
        [get_local_best_score
          ((phase1 fitness cfg j st).swarm.set j
            (evalUpdate fitness ((phase1 fitness cfg j st).swarm.getD j default)))
          cfg j]) := by
  show (evalStep fitness cfg
    (phase1 fitness cfg j st) j).lbest_scores_history[j]? = _
  rw [evalStep_lbest]
  have hlen : j < (phase1 fitness cfg j st).lbest_scores_history.length := by
    rw [(phase1_lengths fitness cfg j st).2.2]
    exact hj
  rw [List.getElem?_set_self hlen]
  have hrow : (phase1 fitness cfg j st).lbest_scores_history.getD j [] =
      st.lbest_scores_history.getD j [] := by
    rw [List.getD_eq_getElem _ _ hlen, List.getD_eq_getElem _ _ hj]
    have := phase1_lbest_untouched fitness cfg j st j le_rfl
    rw [List.getElem?_eq_getElem hlen, List.getElem?_eq_getElem hj] at this
    exact Option.some.inj this
  rw [hrow]

theorem mixedSnapshotSwarm_getElem? (fitness : List ℚ → ℚ)
    (swarm : List Particle) (i j : ℕ) :
    (mixedSnapshotSwarm fitness swarm i)[j]? =
      if j < swarm.length then
        some (if j ≤ i then evalUpdate fitness (swarm.getD j default)
              else swarm.getD j default)
      else none := by
  unfold mixedSnapshotSwarm
  rw [List.getElem?_map]
  by_cases h : j < swarm.length
  · rw [List.getElem?_range h, if_pos h]
    rfl
  · rw [List.getElem?_eq_none (by simpa using le_of_not_lt h), if_neg h]
    rfl

theorem phase1_partial_swarm_eq_mixed (fitness : List ℚ → ℚ) (cfg : Config)
    (st : SwarmState) (i : ℕ) (hi : i < st.swarm.length) :
    (phase1 fitness cfg i st).swarm.set i
        (evalUpdate fitness ((phase1 fitness cfg i st).swarm.getD i default)) =
      mixedSnapshotSwarm fitness st.swarm i := by
  have hilen : i < (phase1 fitness cfg i st).swarm.length := by
    rw [(phase1_lengths fitness cfg i st).1]
    exact hi
  have hgd : (phase1 fitness cfg i st).swarm.getD i default =
      st.swarm.getD i default := by
    rw [List.getD_eq_getElem _ _ hilen, List.getD_eq_getElem _ _ hi]
    have := phase1_swarm_getElem? fitness cfg i st i
    rw [if_neg (lt_irrefl i), List.getElem?_eq_getElem hilen,
      List.getElem?_eq_getElem hi] at this
    exact Option.some.inj this
  apply List.ext_getElem?
  intro j
  rw [mixedSnapshotSwarm_getElem? fitness st.swarm i j]
  by_cases hj : j = i
  · subst hj
    rw [List.getElem?_set_self hilen, hgd, if_pos hi, if_pos le_rfl]
  · rw [List.getElem?_set_ne (fun h => hj h.symm),
      phase1_swarm_getElem? fitness cfg i st j]
    by_cases hji : j < i
    · have hjlen : j < st.swarm.length := by omega
      rw [if_pos hji, if_pos hjlen, if_pos (by omega),
        List.getElem?_eq_getElem hjlen, List.getD_eq_getElem _ _ hjlen]
      rfl
    · rw [if_neg hji]
      by_cases hjlen : j < st.swarm.length
      · rw [if_pos hjlen, if_neg (by omega), List.getElem?_eq_getElem hjlen,
          List.getD_eq_getElem _ _ hjlen]
      · rw [if_neg hjlen, List.getElem?_eq_none (le_of_not_lt hjlen)]

/-! ## Claims -/

/-- C1 counterexample: in the evaluation phase of the first iteration on
`cfgA` (3 particles, ring radius 1, particle 1 initialized at the position of
score 10, the others at score 0), the local-best score recorded for particle 0
is `0`, while the ring-neighborhood best over the personal bests committed
after the whole evaluation phase (the committed snapshot that phase reaches
once ALL particles' evaluation-and-personal-best updates are done) is `10`:
the logged value is read mid-pass, not after all updates are committed. -/
theorem lbest_log_not_committed_cex :
    ((phase1 fitnessHead cfgA cfgA.num_particles
        (initState cfgA drawsA)).lbest_scores_history.getD 0 []).getD 0 ⊥ =
      ((0 : ℚ) : Score) ∧
    get_local_best_score
        (phase1 fitnessHead cfgA cfgA.num_particles
          (initState cfgA drawsA)).swarm cfgA 0 = ((10 : ℚ) : Score) ∧
    ((0 : ℚ) : Score) ≠ ((10 : ℚ) : Score) := by
  decide

/-- C1 (amended): the local-best score recorded for particle `i` during the
evaluation phase equals the ring-neighborhood best over the *mixed* snapshot
in which particles with index `≤ i` already carry this iteration's
personal-best update while particles with index `> i` still carry the
previous iteration's values — the query runs in the same per-particle pass as
the updates, so the logged value depends on the index order, not on the fully
committed personal-best set. -/
theorem lbest_log_mixed_snapshot (fitness : List ℚ → ℚ) (cfg : Config)
    (st : SwarmState) (i : ℕ)
    (hsw : st.swarm.length = cfg.num_particles)
    (hlb : st.lbest_scores_history.length = cfg.num_particles)
    (hi : i < cfg.num_particles) :
    (phase1 fitness cfg cfg.num_particles st).lbest_scores_history[i]? =
      some (st.lbest_scores_history.getD i [] ++
        [get_local_best_score (mixedSnapshotSwarm fitness st.swarm i) cfg i]) := by
  rw [phase1_lbest_stable fitness cfg st i cfg.num_particles hi]
  rw [phase1_lbest_at_self fitness cfg st i (by rw [hlb]; exact hi)]
  rw [phase1_partial_swarm_eq_mixed fitness cfg st i (by rw [hsw]; exact hi)]

/-- Witness for the amended C1, at particle 0 of the `cfgA` swarm. -/
theorem lbest_log_mixed_snapshot_witness :
    ((initState cfgA drawsA).swarm.length = cfgA.num_particles ∧
     (initState cfgA drawsA).lbest_scores_history.length = cfgA.num_particles ∧
     0 < cfgA.num_particles) ∧
    (phase1 fitnessHead cfgA cfgA.num_particles
        (initState cfgA drawsA)).lbest_scores_history[0]? =
      some ((initState cfgA drawsA).lbest_scores_history.getD 0 [] ++
        [get_local_best_score
          (mixedSnapshotSwarm fitnessHead (initState cfgA drawsA).swarm 0)
          cfgA 0]) :=
  ⟨⟨by decide, by decide, by decide⟩,
    lbest_log_mixed_snapshot fitnessHead cfgA (initState cfgA drawsA) 0
      (by decide) (by decide) (by decide)⟩

/-- C7: after a run of `max_iterations` iterations from a fresh engine,
`score_history` and the average-kinetic-energy history have exactly
`max_iterations` entries, and every particle's `energy_history` and
`kinetic_energy_history` and every per-particle personal-best and local-best
history row have exactly `max_iterations` entries. -/
theorem history_lengths_after_run (fitness : List ℚ → ℚ) (cfg : Config)
    (rng : Rng) (draws : ℕ → ℕ → ℚ) :
    (optimize fitness cfg rng (initState cfg draws)).2.score_history.length =
      cfg.max_iterations ∧
    (optimize fitness cfg rng
        (initState cfg draws)).2.kinetic_energy_history.length =
      cfg.max_iterations ∧
    (∀ p ∈ (optimize fitness cfg rng (initState cfg draws)).2.swarm,
      p.energy_history.length = cfg.max_iterations ∧
      p.kinetic_energy_history.length = cfg.max_iterations) ∧
    (∀ h ∈ (optimize fitness cfg rng
        (initState cfg draws)).2.pbest_scores_history,
      h.length = cfg.max_iterations) ∧
    (∀ h ∈ (optimize fitness cfg rng
        (initState cfg draws)).2.lbest_scores_history,
      h.length = cfg.max_iterations) := by
  obtain ⟨_, _, _, h4, h5, h6, h7, h8⟩ :=
    optimizeLoop_histInv fitness cfg rng draws cfg.max_iterations
  exact ⟨h4, h5, h6, h7, h8⟩

/-- C2: the neighborhood lookup scans offsets `-k..k` without `0` over
`(i+o+n) mod n`, starts from particle `i` as candidate, replaces it only on a
strictly greater `best_score` (everything scanned before the winner is
strictly below it, so ties keep the earlier candidate, and the winner attains
the maximum); for 5 particles, `k = 1` and personal bests
`[-50, -10, -100, -5, -200]`, the local-best score at index 2 is `-5`. -/
theorem local_best_scan_spec :
    get_local_best_score testSwarm5 cfg5 2 = ((-5 : ℚ) : Score) ∧
    (∀ k o, o ∈ ringOffsets k ↔ (-(k : ℤ) ≤ o ∧ o ≤ (k : ℤ) ∧ o ≠ 0)) ∧
    ∀ (swarm : List Particle) (k n i : ℕ),
      (∀ q ∈ scanList swarm k n i,
          q.best_score ≤ (localBestCandidate swarm k n i).best_score) ∧
      ∃ pre post, scanList swarm k n i =
          pre ++ (localBestCandidate swarm k n i) :: post ∧
        ∀ q ∈ pre, q.best_score < (localBestCandidate swarm k n i).best_score := by
  refine ⟨by decide, mem_ringOffsets, ?_⟩
  intro swarm k n i
  rw [localBestCandidate_eq_pickBest]
  exact pickBest_first_argmax _ _

/-- C6: engine construction fails exactly when the configuration violates
`1 ≤ neighborhood_size < num_particles / 2` (so in particular when
`neighborhood_size = 0` or `neighborhood_size ≥ num_particles / 2`), and on
success it returns the freshly initialized state, untouched by any
optimization work. -/
theorem init_fails_iff_bad_neighborhood (cfg : Config) (draws : ℕ → ℕ → ℚ) :
    ((∃ e, LocalBestPSO.init cfg draws = .error e) ↔
      (cfg.neighborhood_size = 0 ∨
        cfg.num_particles ≤ 2 * cfg.neighborhood_size)) ∧
    ∀ st, LocalBestPSO.init cfg draws = .ok st → st = initState cfg draws := by
  have hcast : ((cfg.neighborhood_size : ℚ) < (cfg.num_particles : ℚ) / 2) ↔
      2 * cfg.neighborhood_size < cfg.num_particles := by
    rw [lt_div_iff₀ (by norm_num : (0:ℚ) < 2)]
    rw [show (cfg.neighborhood_size : ℚ) * 2 =
        ((2 * cfg.neighborhood_size : ℕ) : ℚ) by push_cast; ring]
    exact_mod_cast Iff.rfl
  have hcond : (¬ (1 ≤ cfg.neighborhood_size ∧
      (cfg.neighborhood_size : ℚ) < (cfg.num_particles : ℚ) / 2)) ↔
      (cfg.neighborhood_size = 0 ∨
        cfg.num_particles ≤ 2 * cfg.neighborhood_size) := by
    rw [hcast]; omega
  unfold LocalBestPSO.init
  by_cases h : (1 ≤ cfg.neighborhood_size ∧
      (cfg.neighborhood_size : ℚ) < (cfg.num_particles : ℚ) / 2)
  · rw [if_neg (by simpa using h)]
    refine ⟨?_, ?_⟩
    · constructor
      · rintro ⟨e, he⟩; exact Except.noConfusion he
      · intro hbad; exact absurd h (hcond.mpr hbad)
    · intro st hst
      injection hst with h1
      exact h1.symm
  · rw [if_pos (by simpa using h)]
    refine ⟨?_, ?_⟩
    · constructor
      · intro _; exact hcond.mp h
      · intro _; exact ⟨_, rfl⟩
    · intro st hst; exact Except.noConfusion hst

/-- C8: loading fails with the not-found error when the file does not exist;
otherwise with the YAML syntax error when parsing fails; otherwise with a
missing-key error naming the first absent key of the fixed required-key
order; and returns the parsed parameters when all required keys are
present. -/
theorem load_parameters_spec :
    (∀ parsed, load_parameters false parsed = .error .fileNotFound) ∧
    (load_parameters true none = .error .yamlSyntaxError) ∧
    ∀ ps, load_parameters true (some ps) =
      match requiredKeys.find? (fun k => ! hasKey ps k) with
      | some k => .error (.missingKey k)
      | none => .ok ps := by
  refine ⟨fun parsed => rfl, rfl, fun ps => ?_⟩
  show (match checkRequiredKeys requiredKeys ps with
        | Except.error e => (Except.error e : Except LoadError ParamsDict)
        | Except.ok _ => Except.ok ps) = _
  rw [checkRequiredKeys_eq_find]
  cases requiredKeys.find? (fun k => ! hasKey ps k) <;> rfl

/-- C3: over any run from a freshly constructed engine, the sequence of
entries appended to `score_history` is non-decreasing, and the global best
score after each aggregation step is at least its value before that step. -/
theorem global_best_monotone (fitness : List ℚ → ℚ) (cfg : Config) (rng : Rng)
    (draws : ℕ → ℕ → ℚ) :
    List.Chain' (· ≤ ·)
      ((optimize fitness cfg rng (initState cfg draws)).2.score_history) ∧
    ∀ (st : SwarmState) (total : ℚ),
      st.global_best_score ≤ (aggregate cfg total st).global_best_score := by
  constructor
  · exact (optimizeLoop_score_chain fitness cfg rng cfg.max_iterations
      (initState cfg draws) (by simp [initState]) (by simp [initState])).1
  · intro st total
    exact (aggregate_spec cfg total st).2.1

/-- C4 counterexample: for the configuration `cfgB`, whose bound pairs both
satisfy `min < max` but whose velocity bounds are `[1, 2]`, a freshly
initialized particle's velocity (the zero vector) is NOT component-wise
within the velocity bounds, refuting the claim that the bounds hold after
initialization for every such configuration. -/
theorem init_velocity_out_of_bounds_cex :
    cfgB.min_pos < cfgB.max_pos ∧ cfgB.min_vel < cfgB.max_vel ∧
    ¬ (∀ x ∈ (Particle.init cfgB (fun _ => 0)).velocity,
        cfgB.min_vel ≤ x ∧ x ≤ cfgB.max_vel) := by
  decide

/-- C4 (amended): with `min ≤ max` in both bound pairs, the position is
component-wise within the position bounds after initialization (the uniform
draws land inside the bounds) and after every `update_position` call, for any
velocity and any `dt`; the velocity is component-wise within the velocity
bounds after every `update_velocity` call regardless of `w`, `c1`, `c2`,
noise, or the pre-call state; but after initialization the velocity (the zero
vector) is within the velocity bounds only under the additional assumption
`min_vel ≤ 0 ≤ max_vel`. -/
theorem bounds_invariants (cfg : Config)
    (hpos : cfg.min_pos ≤ cfg.max_pos) (hvel : cfg.min_vel ≤ cfg.max_vel) :
    (∀ draws : ℕ → ℚ, (∀ d, cfg.min_pos ≤ draws d ∧ draws d ≤ cfg.max_pos) →
      ∀ x ∈ (Particle.init cfg draws).position,
        cfg.min_pos ≤ x ∧ x ≤ cfg.max_pos) ∧
    (cfg.min_vel ≤ 0 ∧ 0 ≤ cfg.max_vel →
      ∀ draws : ℕ → ℚ, ∀ x ∈ (Particle.init cfg draws).velocity,
        cfg.min_vel ≤ x ∧ x ≤ cfg.max_vel) ∧
    (∀ (r1 r2 : ℚ) (noise : ℕ → ℚ) (lbp : List ℚ) (p : Particle),
      ∀ x ∈ (Particle.update_velocity cfg r1 r2 noise lbp p).velocity,
        cfg.min_vel ≤ x ∧ x ≤ cfg.max_vel) ∧
    (∀ p : Particle, ∀ x ∈ (Particle.update_position cfg p).position,
        cfg.min_pos ≤ x ∧ x ≤ cfg.max_pos) := by
  refine ⟨?_, ?_, ?_, ?_⟩
  · intro draws hdraws x hx
    simp only [Particle.init, List.mem_map, List.mem_range] at hx
    obtain ⟨d, _, rfl⟩ := hx
    exact hdraws d
  · rintro ⟨hlo, hhi⟩ draws x hx
    have hx0 : x = 0 :=
      List.eq_of_mem_replicate (by simpa [Particle.init] using hx)
    rw [hx0]
    exact ⟨hlo, hhi⟩
  · intro r1 r2 noise lbp p x hx
    simp only [Particle.update_velocity, List.mem_map] at hx
    obtain ⟨y, _, rfl⟩ := hx
    exact clip_bounds y _ _ hvel
  · intro p x hx
    simp only [Particle.update_position, List.mem_map] at hx
    obtain ⟨y, _, rfl⟩ := hx
    exact clip_bounds y _ _ hpos

/-- Witness for the amended C4 at the test configuration `cfg5`. -/
theorem bounds_invariants_witness :
    (cfg5.min_pos ≤ cfg5.max_pos ∧ cfg5.min_vel ≤ cfg5.max_vel) ∧
    ((∀ draws : ℕ → ℚ, (∀ d, cfg5.min_pos ≤ draws d ∧ draws d ≤ cfg5.max_pos) →
      ∀ x ∈ (Particle.init cfg5 draws).position,
        cfg5.min_pos ≤ x ∧ x ≤ cfg5.max_pos) ∧
    (cfg5.min_vel ≤ 0 ∧ 0 ≤ cfg5.max_vel →
      ∀ draws : ℕ → ℚ, ∀ x ∈ (Particle.init cfg5 draws).velocity,
        cfg5.min_vel ≤ x ∧ x ≤ cfg5.max_vel) ∧
    (∀ (r1 r2 : ℚ) (noise : ℕ → ℚ) (lbp : List ℚ) (p : Particle),
      ∀ x ∈ (Particle.update_velocity cfg5 r1 r2 noise lbp p).velocity,
        cfg5.min_vel ≤ x ∧ x ≤ cfg5.max_vel) ∧
    (∀ p : Particle, ∀ x ∈ (Particle.update_position cfg5 p).position,
        cfg5.min_pos ≤ x ∧ x ≤ cfg5.max_pos)) :=
  ⟨⟨by norm_num [cfg5], by norm_num [cfg5]⟩,
    bounds_invariants cfg5 (by norm_num [cfg5]) (by norm_num [cfg5])⟩

/-- C5: `update_velocity` combines the two shared scalar uniforms `r1`, `r2`
with the per-dimension noise exactly as
`clip(w*v_d + c1*r1*(best_d - pos_d) + c2*r2*(lbest_d - pos_d) + noise_d)`
in every dimension, then recomputes `kinetic_energy` as half the sum of the
squared new velocity components and appends it (exactly once) to
`kinetic_energy_history`. -/
theorem update_velocity_spec (cfg : Config) (r1 r2 : ℚ) (noise : ℕ → ℚ)
    (local_best_position : List ℚ) (p : Particle)
    (hv : p.velocity.length = cfg.dimensions)
    (hx : p.position.length = cfg.dimensions)
    (hb : p.best_position.length = cfg.dimensions)
    (hl : local_best_position.length = cfg.dimensions) :
    (p.update_velocity cfg r1 r2 noise local_best_position).velocity =
      specVelocity cfg r1 r2 noise local_best_position p ∧
    (p.update_velocity cfg r1 r2 noise local_best_position).kinetic_energy =
      (1 / 2 : ℚ) *
        (((p.update_velocity cfg r1 r2 noise local_best_position).velocity.map
          (fun v => v ^ 2)).sum) ∧
    (p.update_velocity cfg r1 r2 noise local_best_position).kinetic_energy_history =
      p.kinetic_energy_history ++
        [(p.update_velocity cfg r1 r2 noise local_best_position).kinetic_energy] := by
  refine ⟨?_, rfl, rfl⟩
  apply List.ext_getElem
  · simp [Particle.update_velocity, specVelocity, List.length_ofFn, hv, hx, hb, hl]
  · intro n h1 h2
    have hd : n < cfg.dimensions := by
      simpa [Particle.update_velocity, hv, hx, hb, hl] using h1
    simp only [Particle.update_velocity, specVelocity, List.getElem_map,
      List.getElem_zipWith, List.getElem_ofFn, List.getElem_range]
    rw [List.getD_eq_getElem _ _
          (show n < p.velocity.length by rw [hv]; exact hd),
        List.getD_eq_getElem _ _
          (show n < p.position.length by rw [hx]; exact hd),
        List.getD_eq_getElem _ _
          (show n < p.best_position.length by rw [hb]; exact hd),
        List.getD_eq_getElem _ _
          (show n < local_best_position.length by rw [hl]; exact hd)]

/-- Witness for C5 at a concrete one-dimensional particle. -/
theorem update_velocity_spec_witness :
    (particleW.velocity.length = cfgA.dimensions ∧
     particleW.position.length = cfgA.dimensions ∧
     particleW.best_position.length = cfgA.dimensions ∧
     ([(0 : ℚ)].length = cfgA.dimensions)) ∧
    ((particleW.update_velocity cfgA 0 0 (fun _ => 0) [(0 : ℚ)]).velocity =
      specVelocity cfgA 0 0 (fun _ => 0) [(0 : ℚ)] particleW ∧
    (particleW.update_velocity cfgA 0 0 (fun _ => 0) [(0 : ℚ)]).kinetic_energy =
      (1 / 2 : ℚ) *
        (((particleW.update_velocity cfgA 0 0 (fun _ => 0) [(0 : ℚ)]).velocity.map
          (fun v => v ^ 2)).sum) ∧
    (particleW.update_velocity cfgA 0 0 (fun _ => 0) [(0 : ℚ)]).kinetic_energy_history =
      particleW.kinetic_energy_history ++
        [(particleW.update_velocity cfgA 0 0 (fun _ => 0) [(0 : ℚ)]).kinetic_energy]) :=
  ⟨⟨rfl, rfl, rfl, rfl⟩,
    update_velocity_spec cfgA 0 0 (fun _ => 0) [(0 : ℚ)] particleW rfl rfl rfl rfl⟩

/-- C10: for a validly constructed engine with `max_iterations = 0`,
`optimize` performs no objective evaluation, returns `(None, -inf)`, and
leaves every history (engine-level and per-particle) empty. -/
theorem optimize_zero_iterations (fitness : List ℚ → ℚ) (cfg : Config)
    (rng : Rng) (draws : ℕ → ℕ → ℚ) (st : SwarmState)
    (hinit : LocalBestPSO.init cfg draws = .ok st)
    (hT : cfg.max_iterations = 0) :
    (optimize fitness cfg rng st).1 = (none, (⊥ : Score)) ∧
    (optimize fitness cfg rng st).2.evalCount = 0 ∧
    (optimize fitness cfg rng st).2.score_history = [] ∧
    (optimize fitness cfg rng st).2.kinetic_energy_history = [] ∧
    (∀ h ∈ (optimize fitness cfg rng st).2.pbest_scores_history, h = []) ∧
    (∀ h ∈ (optimize fitness cfg rng st).2.lbest_scores_history, h = []) ∧
    (∀ p ∈ (optimize fitness cfg rng st).2.swarm,
      p.energy_history = [] ∧ p.kinetic_energy_history = []) := by
  have hst : st = initState cfg draws := by
    unfold LocalBestPSO.init at hinit
    by_cases hc : ¬ (1 ≤ cfg.neighborhood_size ∧
        (cfg.neighborhood_size : ℚ) < (cfg.num_particles : ℚ) / 2)
    · rw [if_pos hc] at hinit
      exact Except.noConfusion hinit
    · rw [if_neg hc] at hinit
      injection hinit with h
      exact h.symm
  subst hst
  have hopt : optimize fitness cfg rng (initState cfg draws) =
      ((none, (⊥ : Score)), initState cfg draws) := by
    unfold optimize
    rw [hT]
    rfl
  rw [hopt]
  refine ⟨rfl, rfl, rfl, rfl, ?_, ?_, ?_⟩
  · intro h hh
    exact List.eq_of_mem_replicate hh
  · intro h hh
    exact List.eq_of_mem_replicate hh
  · intro p hp
    simp only [initState, List.mem_map, List.mem_range] at hp
    obtain ⟨i, _, rfl⟩ := hp
    exact ⟨rfl, rfl⟩

/-- Witness for C10 at the zero-iteration configuration `cfgZ`. -/
theorem optimize_zero_iterations_witness :
    (LocalBestPSO.init cfgZ drawsA = .ok (initState cfgZ drawsA) ∧
      cfgZ.max_iterations = 0) ∧
    ((optimize fitnessHead cfgZ rngZero (initState cfgZ drawsA)).1 =
      (none, (⊥ : Score)) ∧
    (optimize fitnessHead cfgZ rngZero (initState cfgZ drawsA)).2.evalCount = 0 ∧
    (optimize fitnessHead cfgZ rngZero (initState cfgZ drawsA)).2.score_history = [] ∧
    (optimize fitnessHead cfgZ rngZero
        (initState cfgZ drawsA)).2.kinetic_energy_history = [] ∧
    (∀ h ∈ (optimize fitnessHead cfgZ rngZero
        (initState cfgZ drawsA)).2.pbest_scores_history, h = []) ∧
    (∀ h ∈ (optimize fitnessHead cfgZ rngZero
        (initState cfgZ drawsA)).2.lbest_scores_history, h = []) ∧
    (∀ p ∈ (optimize fitnessHead cfgZ rngZero (initState cfgZ drawsA)).2.swarm,
      p.energy_history = [] ∧ p.kinetic_energy_history = [])) := by
  have hcond : 1 ≤ cfgZ.neighborhood_size ∧
      (cfgZ.neighborhood_size : ℚ) < (cfgZ.num_particles : ℚ) / 2 := by
    constructor
    · norm_num [cfgZ]
    · norm_num [cfgZ]
  have hinit : LocalBestPSO.init cfgZ drawsA = .ok (initState cfgZ drawsA) := by
    unfold LocalBestPSO.init
    rw [if_neg (not_not_intro hcond)]
  exact ⟨⟨hinit, rfl⟩,
    optimize_zero_iterations fitnessHead cfgZ rngZero drawsA _ hinit rfl⟩

/-- C9: `save_parameters` never raises: both the successful and the failing
write path are caught inside the method and return normally, reporting only
through a printed message. -/
theorem save_parameters_never_raises
    (writeOutcome : Except String Unit) (filepath : String) :
    ∃ msgs, save_parameters writeOutcome filepath = .ok msgs := by
  cases writeOutcome with
  | ok _ => exact ⟨_, rfl⟩
  | error e => exact ⟨_, rfl⟩

end PSO
